import Mathlib

/-!
Verification of the `soloranking` interview-agent core: a shallow embedding of
the phase state machine (`agents/CaseAgent.py`), the case model
(`models/Case.py`, `models/Phase.py`, `utils/phases.py`), the chunker and
ingestion configuration (`assistants/CaseAssistant.py`), and the retrieval
store (`services/RAGService.py`).

Python dictionaries are modelled as association lists with a first-match
lookup (keys are unique in every state the code builds, so first-match agrees
with Python's dict semantics).  Floating-point scores are modelled as `ℚ`.
The text-completion oracle is an external capability: a call to it is
modelled by passing its (already transport-delivered) reply as an argument;
the result of `json.loads` on that reply is modelled as an `Option` of a
well-typed record with optional fields (`none` = `JSONDecodeError`).
-/

namespace SoloRanking

/-- First-match association-list lookup, modelling Python `dict.get`. -/
def alookup {α : Type} : List (String × α) → String → Option α
  | [], _ => none
  | (k, v) :: t, key => if k = key then some v else alookup t key

/-- Key removal, modelling Python `del d[key]` / `os.remove`. -/
def eraseKey {α : Type} (l : List (String × α)) (key : String) : List (String × α) :=
  l.filter (fun p => p.1 ≠ key)

/-! ### Case model — `models/Phase.py`, `models/Case.py`

`utils/phases.py` contains a near-duplicate `Case` class whose
`get_next_phase` is textually identical to the one embedded here; the
embedding below follows `models/Case.py`, the variant the live agent
(`agents/CaseAgent.py`, constructed in `entrypoint.py`) uses. -/

/-- `models/Phase.py`: a phase is a name, a question, and a rubric. -/
structure Phase where
  name : String
  question : String
  rubric : List String
  deriving DecidableEq

/-- `models/Case.py`: description, phase order, and a name→`Phase` dict. -/
structure Case where
  case_description : String
  phase_order : List String
  phases : List (String × Phase)
  deriving DecidableEq

/-- `Case.get_phase`: `self.phases.get(phase_name)`.  The current phase of a
session is an `Option String` (`None` after the interview ends); `None` is
never a key of the string-keyed `phases` dict, so looking it up yields
`None`. -/
def Case.get_phase (c : Case) : Option String → Option Phase
  | none => none
  | some n => alookup c.phases n

/-- Python `list.index` wrapped in `try/except ValueError`: the index of the
first occurrence of `a`, or `none` when `a` does not occur. -/
def idxOf? : List String → String → Option Nat
  | [], _ => none
  | b :: t, a => if b = a then some 0 else (idxOf? t a).map (· + 1)

/-- `Case.get_next_phase` on a phase name: `phase_order.index(current)`;
if the index is below `len(phase_order) - 1`, the next entry, else `None`;
a `ValueError` (name absent) also yields `None`. -/
def get_next_phase_name (order : List String) (cur : String) : Option String :=
  match idxOf? order cur with
  | none => none
  | some i => if i < order.length - 1 then order[i + 1]? else none

/-- `Case.get_next_phase`, lifted to the session's optional current phase
(`phase_order.index(None)` raises `ValueError`, caught to `None`). -/
def Case.get_next_phase (c : Case) : Option String → Option String
  | none => none
  | some cu => get_next_phase_name c.phase_order cu

/-! ### Evaluations and the oracle reply — `agents/CaseAgent.py` -/

/-- The evaluation record stored in `evaluation_history` (lines 98–109 of
`agents/CaseAgent.py`). -/
structure Evaluation where
  response : String
  phase : String
  criterion_scores : List (String × ℚ)
  overall_score : ℚ
  should_advance : Bool
  strengths : List String
  improvement_areas : List String
  specific_feedback : String
  case_facts_used : String
  timestamp : String
  deriving DecidableEq

/-- A parsed oracle verdict: the JSON object returned by `json.loads` on the
oracle's reply, with every schema key optional (Python reads them with
`dict.get(key, default)`). -/
structure EvalData where
  criterion_scores : Option (List (String × ℚ))
  overall_score : Option ℚ
  should_advance : Option Bool
  strengths : Option (List String)
  improvement_areas : Option (List String)
  specific_feedback : Option String
  deriving DecidableEq

/-- The fallback dict built when `json.loads` raises `JSONDecodeError`
(lines 88–95 of `agents/CaseAgent.py`). -/
def fallbackEvalData : EvalData where
  criterion_scores := some []
  overall_score := some 5
  should_advance := some false
  strengths := some ["Attempted to answer the question"]
  improvement_areas := some ["Response needs more development"]
  specific_feedback := some "Unable to parse detailed evaluation."

/-- A parsed oracle coaching payload (optional keys, as for `EvalData`). -/
structure CoachData where
  coaching_message : Option String
  leading_questions : Option (List String)
  areas_to_explore : Option (List String)
  encouragement : Option String
  deriving DecidableEq

/-- The fallback coaching dict (lines 192–197 of `agents/CaseAgent.py`). -/
def fallbackCoachData : CoachData where
  coaching_message := some "That's a good start! Let's refine your approach."
  leading_questions := some ["What other factors might be important to consider?"]
  areas_to_explore := some ["Market dynamics", "Financial implications"]
  encouragement := some "You're on the right track - keep building on your analysis!"

/-! ### Session state — `agents/CaseAgent.py` -/

/-- The mutable state of a `CaseAgent` session: the current phase pointer
(`None` = ENDED), the per-phase evaluation history dict, and the agent's
instruction string. -/
structure SessionState where
  current_phase : Option String
  evaluation_history : List (String × Evaluation)
  instructions : String
  deriving DecidableEq

/-- `evaluation_history.get(current_phase)`; `None` is never a key of the
string-keyed dict. -/
def histGet (h : List (String × Evaluation)) : Option String → Option Evaluation
  | none => none
  | some k => alookup h k

/-- `evaluation_history[phase] = evaluation`: dict assignment, overwriting
any stored evaluation for the same phase. -/
def histSet (h : List (String × Evaluation)) (k : String) (v : Evaluation) :
    List (String × Evaluation) :=
  (k, v) :: eraseKey h k

/-- `CaseAgent._handle_error` (lines 304–308): logs, then forces the session
to the terminal state by setting `current_phase = None` and replacing the
instructions. -/
def handle_error (s : SessionState) : SessionState :=
  { s with current_phase := none,
           instructions := "The interview has concluded due to an error. Please inform the user and end the session." }

/-- `CaseAgent._get_phase_instructions` (lines 279–302), abridged to the parts
that depend on the state: the full prompt text carries no additional data. -/
def get_phase_instructions (c : Case) (cur : Option String) : String :=
  match c.get_phase cur with
  | none => "Conduct the interview professionally."
  | some ph =>
    "You are conducting a case interview. Current phase: " ++ cur.getD ""
      ++ " QUESTION TO ADDRESS: " ++ ph.question

/-- `CaseAgent.evaluate_response` (lines 31–118).  `oracle_reply` is the
result of `json.loads` on the oracle's answer (`none` = `JSONDecodeError`,
which triggers the fallback verdict); `case_facts` is the retrieval result
and `timestamp` the clock reading, both threaded in as inputs.  Returns the
updated state and the stored evaluation (`none` models the early return
"No evaluation criteria available."). -/
def evaluate_response (c : Case) (s : SessionState) (user_response : String)
    (case_facts : String) (oracle_reply : Option EvalData) (timestamp : String) :
    SessionState × Option Evaluation :=
  match s.current_phase with
  | none => (s, none)
  | some cur =>
    match alookup c.phases cur with
    | none => (s, none)
    | some _ =>
      let data := oracle_reply.getD fallbackEvalData
      let ev : Evaluation :=
        { response := user_response
          phase := cur
          criterion_scores := data.criterion_scores.getD []
          overall_score := data.overall_score.getD 5
          should_advance := data.should_advance.getD false
          strengths := data.strengths.getD []
          improvement_areas := data.improvement_areas.getD []
          specific_feedback := data.specific_feedback.getD ""
          case_facts_used := case_facts
          timestamp := timestamp }
      ({ s with evaluation_history := histSet s.evaluation_history cur ev }, some ev)

/-- `CaseAgent.advance_to_next_phase` (lines 235–253).  Note the source has
no `return` after the first `_handle_error` call: when the stored evaluation
is missing or has `should_advance = False`, the error handler runs (ending
the session) and control falls through to the `get_next_phase` lookup on the
now-`None` current phase. -/
def advance_to_next_phase (c : Case) (s : SessionState) : SessionState :=
  let s1 :=
    match histGet s.evaluation_history s.current_phase with
    | none => handle_error s
    | some ev => if ev.should_advance then s else handle_error s
  match c.get_next_phase s1.current_phase with
  | some np =>
    { s1 with current_phase := some np,
              instructions := get_phase_instructions c (some np) }
  | none => handle_error s1

/-- `CaseAgent.end_interview` (lines 255–262). -/
def end_interview (s : SessionState) : SessionState :=
  { s with current_phase := none,
           instructions := "The interview has concluded. Thank the user for their participation and end the session." }

/-- `CaseAgent.decide_next_action` (lines 215–232).  Returns the new state
and the usage-error report (`some message` corresponds to the early return
"No evaluation available for decision."). -/
def decide_next_action (c : Case) (s : SessionState) : SessionState × Option String :=
  match histGet s.evaluation_history s.current_phase with
  | none => (s, some "No evaluation available for decision.")
  | some ev =>
    if ev.should_advance then
      match c.get_next_phase s.current_phase with
      | some _ => (advance_to_next_phase c s, none)
      | none => (end_interview s, none)
    else (s, none)

/-- `CaseAgent.provide_coaching` (lines 132–211).  The returned `Bool`
records whether the oracle capability was invoked.  When an evaluation is
stored but the current phase has no `Phase` entry, the prompt construction
dereferences `phase.question` on `None` (an `AttributeError`), which the
outer handler routes to `_handle_error` before any oracle call. -/
def provide_coaching (c : Case) (s : SessionState) (oracle_reply : Option CoachData) :
    SessionState × String × Bool :=
  match histGet s.evaluation_history s.current_phase with
  | none => (s, "No evaluation available for coaching.", false)
  | some _ =>
    match c.get_phase s.current_phase with
    | none => (handle_error s, "Error providing coaching", false)
    | some _ =>
      let data := oracle_reply.getD fallbackCoachData
      (s, "coaching_message: " ++ data.coaching_message.getD "That's a good start!"
            ++ " encouragement: " ++ data.encouragement.getD "Keep thinking through this!",
        true)

/-! ### Chunker — `assistants/CaseAssistant.py` -/

/-- `IngestionConfig` (lines 25–29): a pydantic model with two integer
chunking fields (the embedding-model and encoding names are irrelevant to
the chunker's control flow and omitted). -/
structure IngestionConfig where
  chunk_tokens : Nat := 500
  chunk_overlap : Nat := 80
  deriving DecidableEq

/-- The `IngestionConfig` pydantic constructor: it validates field types
only (both fields are integers) and performs no cross-field check, so it
accepts every pair of sizes. -/
def mkIngestionConfig (chunk_tokens chunk_overlap : Nat) : Option IngestionConfig :=
  some { chunk_tokens := chunk_tokens, chunk_overlap := chunk_overlap }

/-- The `while i < len(toks)` loop of `PDFIntakeService.chunk_text`
(lines 56–65), over an abstract token list, with an explicit fuel bound:
`none` means the loop did not finish within `fuel` iterations.  Each
iteration takes `toks[i : i + chunk_tokens]` and advances `i` by
`chunk_tokens - chunk_overlap`. -/
def chunkLoop (ct co : Nat) (toks : List Nat) (i : Nat) : Nat → Option (List (List Nat))
  | 0 => if i < toks.length then none else some []
  | fuel + 1 =>
    if i < toks.length then
      (chunkLoop ct co toks (i + (ct - co)) fuel).map (((toks.drop i).take ct) :: ·)
    else some []

/-- `PDFIntakeService.chunk_text`: run the loop from `i = 0`.  The fuel
`toks.length + 1` is enough for every terminating execution (the window
index grows by at least one per step whenever `chunk_overlap <
chunk_tokens`), so `none` here means the source loop runs forever. -/
def chunk_text (cfg : IngestionConfig) (toks : List Nat) : Option (List (List Nat)) :=
  chunkLoop cfg.chunk_tokens cfg.chunk_overlap toks 0 (toks.length + 1)

/-! ### Embedding index search --- modelled from the spec

`RAGService.search` and `PDFIntakeService.search_similar_chunks` delegate
exact nearest-neighbour search to the third-party FAISS library
(`faiss.IndexFlatIP`), whose code is not part of this repository.
Modelled from the spec: "`search(index, query_text, k)` -> ordered sequence
of (chunk, score) of length ≤ k, score descending, computed by embedding the
query, normalizing it, and returning the top-k chunks by inner product.
Ties broken by original chunk insertion order (stable)."  An index is the
list of indexed chunks paired with their stored (already normalised)
embedding vectors; scores are inner products with the query vector. -/

/-- Inner product of two vectors. -/
def dot (u v : List ℚ) : ℚ := (List.zipWith (fun a b => a * b) u v).sum

/-- An indexed chunk: its text and its stored embedding vector. -/
abbrev Entry := String × List ℚ

/-- Pair every element with its position, starting at `n`: the insertion
order of the chunks in the index. -/
def withIdx {α : Type} : Nat → List α → List (Nat × α)
  | _, [] => []
  | n, a :: l => (n, a) :: withIdx (n + 1) l

/-- Ranking used by top-k search: higher score first, ties by lower
insertion index. -/
def rankRel (a b : Nat × String × ℚ) : Prop :=
  b.2.2 < a.2.2 ∨ (a.2.2 = b.2.2 ∧ a.1 ≤ b.1)

instance : DecidableRel rankRel := fun _ _ =>
  inferInstanceAs (Decidable (_ ∨ _ ∧ _))

instance : IsTotal (Nat × String × ℚ) rankRel where
  total a b := by
    rcases lt_trichotomy a.2.2 b.2.2 with h | h | h
    · exact Or.inr (Or.inl h)
    · rcases Nat.le_total a.1 b.1 with h' | h'
      · exact Or.inl (Or.inr ⟨h, h'⟩)
      · exact Or.inr (Or.inr ⟨h.symm, h'⟩)
    · exact Or.inl (Or.inl h)

instance : IsTrans (Nat × String × ℚ) rankRel where
  trans a b c hab hbc := by
    rcases hab with hab | ⟨hab, hab'⟩
    · rcases hbc with hbc | ⟨hbc, _⟩
      · exact Or.inl (hbc.trans hab)
      · exact Or.inl (by rw [← hbc]; exact hab)
    · rcases hbc with hbc | ⟨hbc, hbc'⟩
      · exact Or.inl (by rw [hab]; exact hbc)
      · exact Or.inr ⟨hab.trans hbc, hab'.trans hbc'⟩

/-- Top-k search over an index: score every entry against the query vector,
sort by descending score with ties by insertion order, and keep the first
`k` results (each result carries its insertion index, chunk text, and
score). -/
def searchRanked (entries : List Entry) (q : List ℚ) (k : Nat) :
    List (Nat × String × ℚ) :=
  (List.insertionSort rankRel
    (withIdx 0 (entries.map (fun e => (e.1, dot q e.2))))).take k

/-- The `RAGService.search` result layer: chunk texts only, scores
discarded. -/
def rag_search (entries : List Entry) (q : List ℚ) (k : Nat) : List String :=
  (searchRanked entries q k).map (fun t => t.2.1)

/-! ### Fact store — `services/RAGService.py` -/

/-- A retrieval failure: a missing index or metadata file
(`faiss.read_index` / `open` on a non-existent path). -/
inductive RagError
  | fileNotFound
  deriving DecidableEq

/-- The state of a `RAGService`: the in-process cache (`case_id ->
(index, chunks)`) and the two persisted artifacts per id — the serialized
FAISS index (`{id}.faiss`, a list of vectors) and the pickled chunk list
(`{id}.meta.pkl`). -/
structure RAGState where
  cache : List (String × List Entry)
  disk_faiss : List (String × List (List ℚ))
  disk_meta : List (String × List String)
  deriving DecidableEq

/-- `RAGService.load` (lines 70–75): return immediately when cached;
otherwise read both artifacts from disk (a missing file raises) and insert
the pair into the cache. -/
def loadRAG (s : RAGState) (id : String) : Except RagError RAGState :=
  if (alookup s.cache id).isSome then .ok s
  else
    match alookup s.disk_faiss id, alookup s.disk_meta id with
    | some vecs, some chs =>
      .ok { s with cache := (id, List.zip chs vecs) :: s.cache }
    | _, _ => .error .fileNotFound

/-- `RAGService.search` (lines 77–87): `load`, then search the cached pair. -/
def searchRAG (s : RAGState) (id : String) (qv : List ℚ) (k : Nat) :
    Except RagError (RAGState × List String) :=
  match loadRAG s id with
  | .error e => .error e
  | .ok s' =>
    match alookup s'.cache id with
    | none => .error .fileNotFound
    | some entries => .ok (s', rag_search entries qv k)

/-- `RAGService.remove` (lines 89–93): only when the id is cached, evict the
cache entry and `os.remove` the two artifacts (an `os.remove` on a missing
file raises after the earlier mutations have happened — the second component
reports such an exception); when the id is not cached, do nothing. -/
def removeRAG (s : RAGState) (id : String) : RAGState × Option RagError :=
  if (alookup s.cache id).isSome then
    let s1 := { s with cache := eraseKey s.cache id }
    if (alookup s1.disk_faiss id).isSome then
      let s2 := { s1 with disk_faiss := eraseKey s1.disk_faiss id }
      if (alookup s2.disk_meta id).isSome then
        ({ s2 with disk_meta := eraseKey s2.disk_meta id }, none)
      else (s2, some .fileNotFound)
    else (s1, some .fileNotFound)
  else (s, none)

/-! ### Case construction — `models/Case.py` -/

/-- A raw phase configuration document: a JSON object whose `question` and
`rubric` keys may be absent (`config["question"]` raises `KeyError` when
absent). -/
structure PhaseDoc where
  question : Option String
  rubric : Option (List String)
  deriving DecidableEq

/-- A raw case document, as passed to `Case.__init__`: every top-level key
may be absent (the constructor reads them with `.get(key, default)`). -/
structure CaseDoc where
  case_description : Option String
  phase_order : Option (List String)
  phases : Option (List (String × PhaseDoc))
  deriving DecidableEq

/-- A construction-time failure: the `KeyError` raised by
`config["question"]` / `config["rubric"]` on a phase entry. -/
inductive CaseError
  | keyError
  deriving DecidableEq

/-- The phase-building loop of `Case.__init__` (lines 51–56): each entry
must carry both required keys, otherwise construction raises. -/
def buildPhases : List (String × PhaseDoc) → Except CaseError (List (String × Phase))
  | [] => .ok []
  | (n, cfg) :: t =>
    match cfg.question, cfg.rubric with
    | some q, some r =>
      match buildPhases t with
      | .ok ps => .ok ((n, { name := n, question := q, rubric := r }) :: ps)
      | .error e => .error e
    | _, _ => .error .keyError

/-- `Case.__init__` (lines 28–56): read `case_description`, `phase_order`
and `phases` with defaults, then build the phase dict; no validation beyond
the per-entry `KeyError` is performed. -/
def mkCase (doc : CaseDoc) : Except CaseError Case :=
  match buildPhases (doc.phases.getD []) with
  | .error e => .error e
  | .ok ps =>
    .ok { case_description := doc.case_description.getD ""
          phase_order := doc.phase_order.getD []
          phases := ps }

/-! ### Concrete example data -/

/-- A two-phase example case (shape of the docstring in `models/Case.py`). -/
def caseEx : Case where
  case_description := "Acme profitability"
  phase_order := ["intro", "calc"]
  phases := [("intro", { name := "intro", question := "Q1", rubric := ["r1"] }),
             ("calc", { name := "calc", question := "Q2", rubric := ["r2"] })]

/-- A stored evaluation that supports advancing. -/
def evAdvance : Evaluation where
  response := "good answer"
  phase := "intro"
  criterion_scores := []
  overall_score := 9
  should_advance := true
  strengths := ["clear"]
  improvement_areas := []
  specific_feedback := "well done"
  case_facts_used := "facts"
  timestamp := "t0"

/-- A stored evaluation that does not support advancing. -/
def evStay : Evaluation :=
  { evAdvance with overall_score := 4, should_advance := false }

/-- A fresh session at the first phase with an empty history. -/
def sStart : SessionState where
  current_phase := some "intro"
  evaluation_history := []
  instructions := "init"

/-- A session at "intro" whose stored evaluation rejects advancement. -/
def sIntroStay : SessionState :=
  { sStart with evaluation_history := [("intro", evStay)] }

/-- A session at "intro" whose stored evaluation supports advancement. -/
def sIntroAdvance : SessionState :=
  { sStart with evaluation_history := [("intro", evAdvance)] }

/-- A terminated session. -/
def sEnded : SessionState :=
  { sStart with current_phase := none }

/-- A store whose artifacts for "doc" are persisted but not cached. -/
def ragEx : RAGState where
  cache := []
  disk_faiss := [("doc", [[1]])]
  disk_meta := [("doc", ["chunk one"])]

/-- The same store with "doc" also cached (the state `create_from_pdf`
leaves behind). -/
def ragCachedEx : RAGState :=
  { ragEx with cache := [("doc", [("chunk one", [1])])] }

/-- A well-formed one-phase case document. -/
def docEx : CaseDoc where
  case_description := some "d"
  phase_order := some ["intro"]
  phases := some [("intro", { question := some "Q", rubric := some ["r"] })]

/-- The case `mkCase` builds from `docEx`. -/
def caseBuilt : Case where
  case_description := "d"
  phase_order := ["intro"]
  phases := [("intro", { name := "intro", question := "Q", rubric := ["r"] })]

/-- A one-chunk index. -/
def entriesEx : List Entry := [("alpha", [1])]

/-! ### Helper lemmas -/

theorem alookup_eraseKey {α : Type} (l : List (String × α)) (k : String) :
    alookup (eraseKey l k) k = none := by
  induction l with
  | nil => rfl
  | cons p t ih =>
    by_cases h : p.1 = k
    · simpa [eraseKey, h] using ih
    · simpa [eraseKey, alookup, h] using ih

theorem idxOf?_eq_none (l : List String) (a : String) (h : a ∉ l) :
    idxOf? l a = none := by
  induction l with
  | nil => rfl
  | cons b t ih =>
    have hb : ¬b = a := fun hba => h (hba ▸ List.mem_cons_self b t)
    have ht : a ∉ t := fun hm => h (List.mem_cons_of_mem _ hm)
    simp [idxOf?, hb, ih ht]

theorem idxOf?_getElem (l : List String) (hnd : l.Nodup) (i : Nat) (hi : i < l.length) :
    idxOf? l l[i] = some i := by
  induction l generalizing i with
  | nil => simp at hi
  | cons b t ih =>
    cases i with
    | zero => simp [idxOf?]
    | succ j =>
      have hj : j < t.length := by simpa using hi
      have hget : (b :: t)[j + 1] = t[j] := by simp
      have hb : ¬b = t[j] := by
        intro hcontra
        exact (List.nodup_cons.mp hnd).1 (hcontra ▸ t.getElem_mem hj)
      rw [hget]
      simp [idxOf?, hb, ih (List.nodup_cons.mp hnd).2 j hj]

/-- Full behaviour of `advance_to_next_phase` on the session state: the
evaluation history is untouched, and the current phase becomes the next
phase exactly when a qualifying evaluation and a next phase exist — in
every other case `_handle_error` has ended the session. -/
theorem advance_characterization (c : Case) (s : SessionState) :
    (advance_to_next_phase c s).evaluation_history = s.evaluation_history ∧
    (advance_to_next_phase c s).current_phase =
      (match histGet s.evaluation_history s.current_phase with
       | some ev =>
         if ev.should_advance then
           (match c.get_next_phase s.current_phase with
            | some np => some np
            | none => none)
         else none
       | none => none) := by
  unfold advance_to_next_phase
  cases hev : histGet s.evaluation_history s.current_phase with
  | none => simp [handle_error, Case.get_next_phase]
  | some ev =>
    cases hsa : ev.should_advance with
    | false => simp [hsa, handle_error, Case.get_next_phase]
    | true =>
      cases hnp : c.get_next_phase s.current_phase with
      | none => simp [hsa, hnp, handle_error]
      | some np => simp [hsa, hnp]

/-- Full behaviour of `decide_next_action` on the session state. -/
theorem decide_characterization (c : Case) (s : SessionState) :
    (decide_next_action c s).1.evaluation_history = s.evaluation_history ∧
    (decide_next_action c s).1.current_phase =
      (match histGet s.evaluation_history s.current_phase with
       | none => s.current_phase
       | some ev =>
         if ev.should_advance then
           (match c.get_next_phase s.current_phase with
            | some np => some np
            | none => none)
         else s.current_phase) ∧
    (decide_next_action c s).2 =
      (match histGet s.evaluation_history s.current_phase with
       | none => some "No evaluation available for decision."
       | some _ => none) := by
  unfold decide_next_action
  cases hev : histGet s.evaluation_history s.current_phase with
  | none => simp
  | some ev =>
    cases hsa : ev.should_advance with
    | false => simp [hsa]
    | true =>
      cases hnp : c.get_next_phase s.current_phase with
      | none => simp [hsa, hnp, end_interview]
      | some np =>
        have h := advance_characterization c s
        have h2 : (advance_to_next_phase c s).current_phase = some np := by
          rw [h.2, hev]; simp [hsa, hnp]
        simp [hsa, hnp, h.1, h2]

/-- If the step size is zero (`chunk_overlap >= chunk_tokens`) and the
window start is inside the token list, the chunking loop never finishes,
whatever the fuel. -/
theorem chunkLoop_no_progress (ct co : Nat) (hle : ct ≤ co) (toks : List Nat)
    (i : Nat) (hi : i < toks.length) :
    ∀ fuel, chunkLoop ct co toks i fuel = none := by
  intro fuel
  induction fuel with
  | zero => simp [chunkLoop, hi]
  | succ n ih =>
    have hstep : ct - co = 0 := Nat.sub_eq_zero_of_le hle
    simp [chunkLoop, hi, hstep, ih]

/-- With a positive step size the loop finishes once the fuel exceeds the
number of remaining tokens. -/
theorem chunkLoop_isSome (ct co : Nat) (hlt : co < ct) (toks : List Nat) :
    ∀ fuel i, toks.length - i < fuel → (chunkLoop ct co toks i fuel).isSome = true := by
  intro fuel
  induction fuel with
  | zero => intro i h; omega
  | succ n ih =>
    intro i h
    by_cases hi : i < toks.length
    · have hrec : (chunkLoop ct co toks (i + (ct - co)) n).isSome = true :=
        ih (i + (ct - co)) (by omega)
      rcases Option.isSome_iff_exists.mp hrec with ⟨v, hv⟩
      simp [chunkLoop, hi, hv]
    · simp [chunkLoop, hi]

theorem mem_withIdx {α : Type} (x : Nat × α) :
    ∀ (n : Nat) (l : List α), x ∈ withIdx n l →
      ∃ j, x.1 = n + j ∧ l[j]? = some x.2 := by
  intro n l
  induction l generalizing n with
  | nil => intro h; simp [withIdx] at h
  | cons a t ih =>
    intro h
    rcases List.mem_cons.mp h with h | h
    · exact ⟨0, by simp [h], by simp [h]⟩
    · rcases ih (n + 1) h with ⟨j, hj1, hj2⟩
      exact ⟨j + 1, by omega, by simpa using hj2⟩

theorem pairwise_lt_withIdx {α : Type} :
    ∀ (n : Nat) (l : List α),
      (withIdx n l).Pairwise (fun a b => a.1 < b.1) := by
  intro n l
  induction l generalizing n with
  | nil => exact List.Pairwise.nil
  | cons a t ih =>
    refine List.Pairwise.cons ?_ (ih (n + 1))
    intro y hy
    rcases mem_withIdx y (n + 1) t hy with ⟨j, hj, _⟩
    omega

/-- Behaviour of the phase-building loop of `Case.__init__`: it succeeds
exactly when every entry carries both required keys, and on success the
phase dict has exactly the input names. -/
theorem buildPhases_characterization :
    ∀ l : List (String × PhaseDoc),
      ((buildPhases l).isOk = true ↔
        ∀ p ∈ l, p.2.question.isSome = true ∧ p.2.rubric.isSome = true) ∧
      (∀ ps, buildPhases l = .ok ps → ps.map (fun p => p.1) = l.map (fun p => p.1)) := by
  intro l
  induction l with
  | nil => exact ⟨by simp [buildPhases, Except.isOk, Except.toBool], by
      intro ps h
      simp [buildPhases] at h
      simp [← h]⟩
  | cons p t ih =>
    obtain ⟨n, cfg⟩ := p
    constructor
    · cases hq : cfg.question with
      | none => simp [buildPhases, hq, Except.isOk, Except.toBool]
      | some q =>
        cases hr : cfg.rubric with
        | none => simp [buildPhases, hq, hr, Except.isOk, Except.toBool]
        | some r =>
          cases hb : buildPhases t with
          | error e =>
            have : ¬(buildPhases t).isOk = true := by
              simp [hb, Except.isOk, Except.toBool]
            simp only [buildPhases, hq, hr, hb]
            constructor
            · intro hcontra; simp [Except.isOk, Except.toBool] at hcontra
            · intro hall
              exact absurd ((ih.1).mpr fun x hx => hall x (List.mem_cons_of_mem _ hx)) this
          | ok ps =>
            have hok : (buildPhases t).isOk = true := by
              simp [hb, Except.isOk, Except.toBool]
            simp only [buildPhases, hq, hr, hb]
            constructor
            · intro _
              intro x hx
              rcases List.mem_cons.mp hx with hx | hx
              · subst hx; simp [hq, hr]
              · exact (ih.1).mp hok x hx
            · intro _; simp [Except.isOk, Except.toBool]
    · intro ps h
      cases hq : cfg.question with
      | none => simp [buildPhases, hq] at h
      | some q =>
        cases hr : cfg.rubric with
        | none => simp [buildPhases, hq, hr] at h
        | some r =>
          cases hb : buildPhases t with
          | error e => simp [buildPhases, hq, hr, hb] at h
          | ok ps' =>
            simp only [buildPhases, hq, hr, hb] at h
            cases h
            simpa using ih.2 ps' hb

/-! ### Claim theorems -/

/-- C1 (counterexample): the claim "advance() is rejected as an error and
leaves the session state (current_phase and evaluation_history) unchanged"
fails on the code.  In the session `sIntroStay` the stored evaluation for
the current phase "intro" has `should_advance = false` and a next phase
exists, so the claim requires `current_phase` to remain "intro"; the code's
`_handle_error` instead ends the session (`current_phase = None`). -/
theorem advance_reject_mutates_state :
    sIntroStay.current_phase = some "intro" ∧
    histGet sIntroStay.evaluation_history sIntroStay.current_phase = some evStay ∧
    evStay.should_advance = false ∧
    caseEx.get_next_phase sIntroStay.current_phase = some "calc" ∧
    (advance_to_next_phase caseEx sIntroStay).current_phase = none :=
  ⟨rfl, rfl, rfl, rfl, rfl⟩

/-- C1 (amended): `advance_to_next_phase` moves `current_phase` to
`next_phase(current_phase)` exactly when the stored evaluation for the
current phase has `should_advance = true` and a next phase exists; in every
other case the error handler transitions the session to the terminal ENDED
state (`current_phase` absent).  `evaluation_history` is unchanged in all
cases. -/
theorem advance_gating (c : Case) (s : SessionState) :
    (advance_to_next_phase c s).evaluation_history = s.evaluation_history ∧
    (advance_to_next_phase c s).current_phase =
      (match histGet s.evaluation_history s.current_phase with
       | some ev =>
         if ev.should_advance then
           (match c.get_next_phase s.current_phase with
            | some np => some np
            | none => none)
         else none
       | none => none) :=
  advance_characterization c s

/-- C2: `decide_next_action` advances to `next_phase(current)` when the
stored evaluation has `should_advance = true` and a next phase exists, ends
the interview (`current_phase` absent) when `should_advance = true` and no
next phase exists, and leaves `current_phase` unchanged when
`should_advance = false`; with no stored evaluation it reports the usage
error "No evaluation available for decision." and changes nothing. -/
theorem decide_next_action_spec (c : Case) (s : SessionState) :
    (decide_next_action c s).1.evaluation_history = s.evaluation_history ∧
    (decide_next_action c s).1.current_phase =
      (match histGet s.evaluation_history s.current_phase with
       | none => s.current_phase
       | some ev =>
         if ev.should_advance then
           (match c.get_next_phase s.current_phase with
            | some np => some np
            | none => none)
         else s.current_phase) ∧
    (decide_next_action c s).2 =
      (match histGet s.evaluation_history s.current_phase with
       | none => some "No evaluation available for decision."
       | some _ => none) ∧
    (histGet s.evaluation_history s.current_phase = none →
      decide_next_action c s = (s, some "No evaluation available for decision.")) ∧
    ((∃ ev, histGet s.evaluation_history s.current_phase = some ev ∧
        ev.should_advance = false) →
      decide_next_action c s = (s, none)) := by
  have h := decide_characterization c s
  refine ⟨h.1, h.2.1, h.2.2, ?_, ?_⟩
  · intro hnone
    unfold decide_next_action
    rw [hnone]
  · rintro ⟨ev, hev, hsa⟩
    unfold decide_next_action
    rw [hev]
    simp [hsa]

/-- C2 (witness): on a fresh session the decision is rejected as a usage
error, and on a session whose evaluation disallows advancing the state is
returned unchanged. -/
theorem decide_next_action_spec_witness :
    decide_next_action caseEx sStart
        = (sStart, some "No evaluation available for decision.") ∧
    decide_next_action caseEx sIntroStay = (sIntroStay, none) :=
  ⟨(decide_next_action_spec caseEx sStart).2.2.2.1 rfl,
   (decide_next_action_spec caseEx sIntroStay).2.2.2.2 ⟨evStay, rfl, rfl⟩⟩

/-- C3: when the oracle reply is not parseable JSON (`oracle_reply = none`,
the `JSONDecodeError` branch), `evaluate_response` still stores and returns
a well-formed Evaluation with `overall_score = 5.0`,
`should_advance = false`, and the generic fallback
strengths/improvement areas/feedback, instead of failing the session. -/
theorem evaluate_fallback (c : Case) (s : SessionState)
    (resp facts ts cur : String)
    (hcur : s.current_phase = some cur)
    (hph : (alookup c.phases cur).isSome = true) :
    ∃ ev : Evaluation,
      evaluate_response c s resp facts none ts
        = ({ s with evaluation_history := histSet s.evaluation_history cur ev },
           some ev) ∧
      ev.overall_score = 5 ∧
      ev.should_advance = false ∧
      ev.strengths = ["Attempted to answer the question"] ∧
      ev.improvement_areas = ["Response needs more development"] ∧
      ev.specific_feedback = "Unable to parse detailed evaluation." ∧
      histGet (histSet s.evaluation_history cur ev) (some cur) = some ev := by
  rcases Option.isSome_iff_exists.mp hph with ⟨ph, hph'⟩
  refine ⟨{ response := resp, phase := cur, criterion_scores := [],
            overall_score := 5, should_advance := false,
            strengths := ["Attempted to answer the question"],
            improvement_areas := ["Response needs more development"],
            specific_feedback := "Unable to parse detailed evaluation.",
            case_facts_used := facts, timestamp := ts },
         ?_, rfl, rfl, rfl, rfl, rfl, ?_⟩
  · unfold evaluate_response
    rw [hcur]
    simp [hph', fallbackEvalData]
  · simp [histGet, histSet, alookup]

/-- C3 (witness): the fallback evaluation at a concrete fresh session. -/
theorem evaluate_fallback_witness :
    ∃ ev : Evaluation,
      evaluate_response caseEx sStart "resp" "facts" none "t1"
        = ({ sStart with
              evaluation_history := histSet sStart.evaluation_history "intro" ev },
           some ev) ∧
      ev.overall_score = 5 ∧
      ev.should_advance = false ∧
      ev.strengths = ["Attempted to answer the question"] ∧
      ev.improvement_areas = ["Response needs more development"] ∧
      ev.specific_feedback = "Unable to parse detailed evaluation." ∧
      histGet (histSet sStart.evaluation_history "intro" ev) (some "intro") = some ev :=
  evaluate_fallback caseEx sStart "resp" "facts" "t1" "intro" rfl rfl

/-- C9: once the session is ENDED (`current_phase` absent), `evaluate`,
`decide_next_action` and `advance` all fail as usage errors, change neither
`current_phase` nor `evaluation_history`, and never reinstate a phase. -/
theorem terminal_state_absorbing (c : Case) (s : SessionState)
    (resp facts ts : String) (reply : Option EvalData)
    (h : s.current_phase = none) :
    evaluate_response c s resp facts reply ts = (s, none) ∧
    decide_next_action c s = (s, some "No evaluation available for decision.") ∧
    (advance_to_next_phase c s).current_phase = none ∧
    (advance_to_next_phase c s).evaluation_history = s.evaluation_history := by
  refine ⟨?_, ?_, ?_, (advance_characterization c s).1⟩
  · unfold evaluate_response
    rw [h]
  · unfold decide_next_action
    rw [h]
    simp [histGet]
  · rw [(advance_characterization c s).2, h]
    simp [histGet]

/-- C9 (witness): the three operations at a concrete ended session. -/
theorem terminal_state_absorbing_witness :
    evaluate_response caseEx sEnded "r" "f" none "t" = (sEnded, none) ∧
    decide_next_action caseEx sEnded
        = (sEnded, some "No evaluation available for decision.") ∧
    (advance_to_next_phase caseEx sEnded).current_phase = none ∧
    (advance_to_next_phase caseEx sEnded).evaluation_history
        = sEnded.evaluation_history :=
  terminal_state_absorbing caseEx sEnded "r" "f" "t" none rfl

/-- C10: with no stored evaluation for the current phase,
`provide_coaching` returns the rejection message without invoking the
oracle capability (the returned flag is `false`) and without changing the
session state. -/
theorem coaching_requires_evaluation (c : Case) (s : SessionState)
    (reply : Option CoachData)
    (h : histGet s.evaluation_history s.current_phase = none) :
    provide_coaching c s reply
      = (s, "No evaluation available for coaching.", false) := by
  unfold provide_coaching
  rw [h]

/-- C10 (witness): coaching on a fresh session with an empty history. -/
theorem coaching_requires_evaluation_witness :
    provide_coaching caseEx sStart none
      = (sStart, "No evaluation available for coaching.", false) :=
  coaching_requires_evaluation caseEx sStart none rfl

/-- C4: for every Case whose `phase_order` lists distinct names (the §3
data-model invariant, automatic for the dict-keyed `utils/phases.py`
constructor), `next_phase(phase_order[-1])` is absent,
`next_phase(phase_order[i]) = phase_order[i+1]` for every valid `i` (and
`next_phase` of an out-of-range position is absent), and `next_phase(name)`
is absent for a name not occurring in `phase_order`: `next_phase` never
skips or reorders. -/
theorem phase_order_invariant (c : Case) (hnd : c.phase_order.Nodup) :
    (∀ hne : c.phase_order ≠ [],
        c.get_next_phase (some (c.phase_order.getLast hne)) = none) ∧
    (∀ i, c.get_next_phase c.phase_order[i]?
        = if i + 1 < c.phase_order.length then c.phase_order[i + 1]? else none) ∧
    (∀ nm, nm ∉ c.phase_order → c.get_next_phase (some nm) = none) := by
  refine ⟨?_, ?_, ?_⟩
  · intro hne
    have hpos : 0 < c.phase_order.length := List.length_pos.mpr hne
    rw [List.getLast_eq_getElem]
    show get_next_phase_name c.phase_order _ = none
    unfold get_next_phase_name
    rw [idxOf?_getElem c.phase_order hnd _ (by omega)]
    simp
  · intro i
    by_cases hi : i < c.phase_order.length
    · rw [List.getElem?_eq_getElem hi]
      show get_next_phase_name c.phase_order _ = _
      unfold get_next_phase_name
      rw [idxOf?_getElem c.phase_order hnd i hi]
      by_cases hi1 : i + 1 < c.phase_order.length
      · rw [if_pos hi1]
        show (if i < c.phase_order.length - 1 then c.phase_order[i + 1]? else none)
          = c.phase_order[i + 1]?
        rw [if_pos (by omega)]
      · rw [if_neg hi1]
        show (if i < c.phase_order.length - 1 then c.phase_order[i + 1]? else none)
          = none
        rw [if_neg (by omega)]
    · rw [List.getElem?_eq_none (by omega), if_neg (by omega)]
      rfl
  · intro nm hnm
    show get_next_phase_name c.phase_order nm = none
    unfold get_next_phase_name
    rw [idxOf?_eq_none c.phase_order nm hnm]

/-- C4 (witness): the ordering facts at the concrete two-phase case. -/
theorem phase_order_invariant_witness :
    caseEx.get_next_phase caseEx.phase_order[0]? = some "calc" ∧
    caseEx.get_next_phase (some (caseEx.phase_order.getLast (by decide))) = none ∧
    caseEx.get_next_phase (some "missing") = none := by
  have h := phase_order_invariant caseEx (by decide)
  exact ⟨h.2.1 0, h.1 (by decide), h.2.2 "missing" (by decide)⟩

/-- C5 (code bug): the pydantic `IngestionConfig` constructor accepts
`chunk_overlap = chunk_tokens = 500` (the claim and the spec require this
configuration to be rejected at construction time), and on such a
configuration the `chunk_text` loop makes no progress: on any non-empty
token list it never terminates, whatever the fuel.  `chunk_text`
terminates exactly when `chunk_overlap < chunk_tokens` or the input is
empty, and each loop iteration advances the window start by exactly
`chunk_tokens - chunk_overlap` tokens. -/
theorem chunker_overlap_not_rejected :
    mkIngestionConfig 500 500 = some { chunk_tokens := 500, chunk_overlap := 500 } ∧
    (∀ fuel, chunkLoop 500 500 [0] 0 fuel = none) ∧
    (∀ (cfg : IngestionConfig) (toks : List Nat),
        (chunk_text cfg toks).isSome
          = (decide (cfg.chunk_overlap < cfg.chunk_tokens) || toks.isEmpty)) ∧
    (∀ (cfg : IngestionConfig) (toks : List Nat) (i fuel : Nat),
        chunkLoop cfg.chunk_tokens cfg.chunk_overlap toks i (fuel + 1)
          = if i < toks.length then
              (chunkLoop cfg.chunk_tokens cfg.chunk_overlap toks
                  (i + (cfg.chunk_tokens - cfg.chunk_overlap)) fuel).map
                (((toks.drop i).take cfg.chunk_tokens) :: ·)
            else some []) := by
  refine ⟨rfl, ?_, ?_, fun cfg toks i fuel => rfl⟩
  · exact fun fuel =>
      chunkLoop_no_progress 500 500 (Nat.le_refl 500) [0] 0 (by simp) fuel
  · intro cfg toks
    by_cases hlt : cfg.chunk_overlap < cfg.chunk_tokens
    · have h := chunkLoop_isSome cfg.chunk_tokens cfg.chunk_overlap hlt toks
        (toks.length + 1) 0 (by omega)
      simp [chunk_text, h, hlt]
    · cases toks with
      | nil => simp [chunk_text, chunkLoop, hlt]
      | cons a t =>
        have h := chunkLoop_no_progress cfg.chunk_tokens cfg.chunk_overlap
          (by omega) (a :: t) 0 (by simp) ((a :: t).length + 1)
        simp only [List.length_cons] at h
        simp [chunk_text, h, hlt]

/-- C6: for every index built over a sequence of chunks and every `k`,
search returns at most `k` results, each of which is one of the indexed
chunks (paired with its inner-product similarity score and its original
position), ordered by descending score with ties broken by original chunk
insertion order; the `RAGService.search` layer is its text projection. -/
theorem search_topk_ordered (entries : List Entry) (q : List ℚ) (k : Nat) :
    (searchRanked entries q k).length ≤ k ∧
    (∀ t ∈ searchRanked entries q k,
        ∃ e, entries[t.1]? = some e ∧ t.2.1 = e.1 ∧ t.2.2 = dot q e.2) ∧
    (searchRanked entries q k).Pairwise
      (fun a b => b.2.2 < a.2.2 ∨ (a.2.2 = b.2.2 ∧ a.1 < b.1)) ∧
    rag_search entries q k = (searchRanked entries q k).map (fun t => t.2.1) := by
  have hperm := List.perm_insertionSort rankRel
    (withIdx 0 (entries.map (fun e => (e.1, dot q e.2))))
  refine ⟨List.length_take_le k _, ?_, ?_, rfl⟩
  · intro t ht
    have ht1 : t ∈ List.insertionSort rankRel
        (withIdx 0 (entries.map (fun e => (e.1, dot q e.2)))) :=
      List.mem_of_mem_take ht
    have ht2 := hperm.mem_iff.mp ht1
    rcases mem_withIdx t 0 _ ht2 with ⟨j, hj, hjg⟩
    rw [List.getElem?_map] at hjg
    cases hje : entries[j]? with
    | none => rw [hje] at hjg; simp at hjg
    | some e =>
      rw [hje] at hjg
      simp only [Option.map_some', Option.some.injEq] at hjg
      refine ⟨e, ?_, ?_, ?_⟩
      · rw [hj]; simpa using hje
      · rw [← hjg]
      · rw [← hjg]
  · have hsorted : (List.insertionSort rankRel
        (withIdx 0 (entries.map (fun e => (e.1, dot q e.2))))).Pairwise rankRel :=
      List.sorted_insertionSort rankRel _
    have hlt := pairwise_lt_withIdx 0 (entries.map (fun e => (e.1, dot q e.2)))
    have hne0 : (withIdx 0 (entries.map (fun e => (e.1, dot q e.2)))).Pairwise
        (fun a b => a.1 ≠ b.1) :=
      hlt.imp (fun h => Nat.ne_of_lt h)
    have hne : (List.insertionSort rankRel
        (withIdx 0 (entries.map (fun e => (e.1, dot q e.2))))).Pairwise
        (fun a b => a.1 ≠ b.1) :=
      (List.Perm.pairwise_iff (fun h => Ne.symm h) hperm).mpr hne0
    have hcomb := hsorted.and hne
    have hfinal : (List.insertionSort rankRel
        (withIdx 0 (entries.map (fun e => (e.1, dot q e.2))))).Pairwise
        (fun a b => b.2.2 < a.2.2 ∨ (a.2.2 = b.2.2 ∧ a.1 < b.1)) :=
      hcomb.imp (fun {a b} h => by
        rcases h with ⟨hr | ⟨heq, hle⟩, hneq⟩
        · exact Or.inl hr
        · exact Or.inr ⟨heq, Nat.lt_of_le_of_ne hle hneq⟩)
    exact List.Pairwise.sublist (List.take_sublist k _) hfinal

/-- C6 (witness): the top result of a concrete search is the indexed chunk
at position 0, carrying its inner-product score. -/
theorem search_topk_ordered_witness :
    ∃ e, entriesEx[(0 : Nat)]? = some e ∧ "alpha" = e.1 ∧ dot [2] [1] = dot [2] e.2 :=
  (search_topk_ordered entriesEx [2] 1).2.1 (0, "alpha", dot [2] [1])
    (List.mem_cons_self _ _)

/-- C7 (counterexample): the claim "remove(document_id) evicts the cache
entry and deletes both persisted artifacts for that id — including an id
whose persisted artifacts exist on disk but are not currently cached" fails
on the code: in a store whose cache does not hold "doc" although both
artifacts are persisted, `remove` deletes nothing, and the subsequent
search loads the artifacts and succeeds instead of failing not-found. -/
theorem remove_uncached_counterexample :
    (alookup ragEx.cache "doc").isSome = false ∧
    (alookup ragEx.disk_faiss "doc").isSome = true ∧
    (alookup ragEx.disk_meta "doc").isSome = true ∧
    removeRAG ragEx "doc" = (ragEx, none) ∧
    searchRAG ragEx "doc" [1] 6
      = .ok ({ ragEx with cache := [("doc", [("chunk one", [1])])] },
             ["chunk one"]) :=
  ⟨rfl, rfl, rfl, rfl, rfl⟩

/-- C7 (amended): `remove(document_id)` is a no-op — not an error — whenever
the id is not in the in-process cache, even if persisted artifacts exist on
disk; when the id is cached and both artifacts are persisted, it evicts the
cache entry, deletes both artifacts, and a subsequent search for that id
fails with a not-found condition. -/
theorem remove_spec (s : RAGState) (id : String) (qv : List ℚ) (k : Nat) :
    (alookup s.cache id = none → removeRAG s id = (s, none)) ∧
    ((alookup s.cache id).isSome = true →
      (alookup s.disk_faiss id).isSome = true →
      (alookup s.disk_meta id).isSome = true →
      removeRAG s id
          = ({ cache := eraseKey s.cache id,
               disk_faiss := eraseKey s.disk_faiss id,
               disk_meta := eraseKey s.disk_meta id }, none) ∧
        searchRAG (removeRAG s id).1 id qv k = .error .fileNotFound) := by
  constructor
  · intro h
    unfold removeRAG
    simp [h]
  · intro h1 h2 h3
    have hrm : removeRAG s id
        = ({ cache := eraseKey s.cache id,
             disk_faiss := eraseKey s.disk_faiss id,
             disk_meta := eraseKey s.disk_meta id }, none) := by
      unfold removeRAG
      simp [h1, h2, h3]
    refine ⟨hrm, ?_⟩
    rw [hrm]
    unfold searchRAG loadRAG
    simp [alookup_eraseKey]

/-- C7 (witness): removal at the concrete cached store, followed by a
failing search. -/
theorem remove_spec_witness :
    removeRAG ragCachedEx "doc"
        = ({ cache := eraseKey ragCachedEx.cache "doc",
             disk_faiss := eraseKey ragCachedEx.disk_faiss "doc",
             disk_meta := eraseKey ragCachedEx.disk_meta "doc" }, none) ∧
    searchRAG (removeRAG ragCachedEx "doc").1 "doc" [1] 3
        = .error .fileNotFound :=
  (remove_spec ragCachedEx "doc" [1] 3).2 rfl rfl rfl

/-- C8 (counterexample): the claim "Case construction fully validates its
input … for every malformed input document, construction fails" fails on
the code: `Case.__init__` reads every top-level key with a default, so the
empty document constructs a Case with an empty `phase_order` (violating the
non-emptiness invariant), and a document listing a phase name with no
`phases` entry constructs a Case violating the name-correspondence
invariant. -/
theorem case_construction_unvalidated :
    mkCase { case_description := none, phase_order := none, phases := none }
      = .ok { case_description := "", phase_order := [], phases := [] } ∧
    mkCase { case_description := none, phase_order := some ["ghost"], phases := none }
      = .ok { case_description := "", phase_order := ["ghost"], phases := [] } :=
  ⟨rfl, rfl⟩

/-- C8 (amended): `Case` construction validates only the per-phase presence
of the `question` and `rubric` keys (a missing key is a construction-time
`KeyError`); it succeeds on every other input, copying `phase_order` and
the phase names verbatim with defaults for missing top-level keys, without
checking the §3 invariants (non-empty `phase_order`, name correspondence). -/
theorem mkCase_spec (doc : CaseDoc) :
    ((mkCase doc).isOk = true ↔
      ∀ p ∈ doc.phases.getD [],
        p.2.question.isSome = true ∧ p.2.rubric.isSome = true) ∧
    (∀ c, mkCase doc = .ok c →
      c.case_description = doc.case_description.getD "" ∧
      c.phase_order = doc.phase_order.getD [] ∧
      c.phases.map (fun p => p.1) = (doc.phases.getD []).map (fun p => p.1)) := by
  have h := buildPhases_characterization (doc.phases.getD [])
  constructor
  · rw [← h.1]
    unfold mkCase
    cases hb : buildPhases (doc.phases.getD []) <;>
      simp [Except.isOk, Except.toBool]
  · intro c hc
    unfold mkCase at hc
    cases hb : buildPhases (doc.phases.getD []) with
    | error e => rw [hb] at hc; simp at hc
    | ok ps =>
      rw [hb] at hc
      simp only [Except.ok.injEq] at hc
      rw [← hc]
      exact ⟨rfl, rfl, h.2 ps hb⟩

/-- C8 (witness): the characterization applied to a concrete well-formed
one-phase document. -/
theorem mkCase_spec_witness :
    caseBuilt.case_description = docEx.case_description.getD "" ∧
    caseBuilt.phase_order = docEx.phase_order.getD [] ∧
    caseBuilt.phases.map (fun p => p.1)
        = (docEx.phases.getD []).map (fun p => p.1) :=
  (mkCase_spec docEx).2 caseBuilt rfl

end SoloRanking
